import Mathlib

/-!
TEditor: line buffer and glyph atlas of `src/main.c`.

A shallow embedding of the single-line text editor in `src/main.c`.

* C arrays are total maps from an index to a value (`Nat → Int` for
  `char buffer[1024]`, `Nat → SDL_Rect` for `glyph_table[95]`); the array length
  is a separate constant and every property about an access states its bound.
* `size_t` values are naturals; where the code subtracts or adds, the result is
  reduced modulo `2 ^ 64` exactly as the machine does.
* `char` values are integers (`-128 .. 127` for a signed `char`).
* `float` values are the rationals a binary32 number can hold; every `float`
  operation computes the exact result and rounds it to the nearest binary32 value
  (ties to even, subnormals included); `floorf` is `Int.floor`; the cast `(int)`
  yields `INT_MIN` outside the range of `int`, as the x86-64 conversion does.
  Infinities and NaN are not modelled.
* SDL drawing calls are recorded as a list of `SDLCall`s; a failed `assert`
  is an `Except` error.
-/

namespace TEditor

/-! ## Constants (`src/main.c`, lines 11-17, 68-69, 156) -/

def FONT_WIDTH : Nat := 128
def FONT_HEIGHT : Nat := 64
def FONT_COLS : Nat := 18
def FONT_ROWS : Nat := 7
def FONT_CHAR_WIDTH : Nat := FONT_WIDTH / FONT_COLS
def FONT_CHAR_HEIGHT : Nat := FONT_HEIGHT / FONT_ROWS
def FONT_SCALE : Nat := 5

def ASCII_DISPLAY_LOW : Nat := 32
def ASCII_DISPLAY_HIGH : Nat := 126

/-- Length of `glyph_table`: `ASCII_DISPLAY_HIGH - ASCII_DISPLAY_LOW + 1`. -/
def GLYPH_TABLE_LEN : Nat := ASCII_DISPLAY_HIGH - ASCII_DISPLAY_LOW + 1

def BUFFER_CAPACITY : Nat := 1024

/-- Number of values of a 64-bit `size_t`. -/
def SIZE_T_MOD : Nat := 18446744073709551616

/-- Key code of `SDLK_BACKSPACE` (`'\b'`). -/
def SDLK_BACKSPACE : Int := 8

/-! ## Line buffer (`src/main.c`, lines 158-160 and 203-238) -/

/-- The globals `buffer`, `buffer_cursor`, `buffer_size`, and the local `quit` flag
of `main`. -/
structure EditorState where
  buffer : Nat → Int
  buffer_cursor : Nat
  buffer_size : Nat
  quit : Bool

/-- State at program start: zero-initialised globals, `quit = false`. -/
def init_state : EditorState :=
  { buffer := fun _ => 0, buffer_cursor := 0, buffer_size := 0, quit := false }

/-- `strlen`: number of characters before the first NUL. The list holds the bytes
of the array; a list without a NUL is a string whose terminator directly follows. -/
def strlen (text : List Int) : Nat :=
  (text.takeWhile (fun c => decide (c ≠ 0))).length

/-- `memcpy (dst + off, src, n)`: the `n` cells `off .. off + n - 1` of `dst` receive
the first `n` bytes of `src`, every other cell keeps its value. -/
def memcpy (dst : Nat → Int) (off : Nat) (src : List Int) (n : Nat) : Nat → Int :=
  fun i => if off ≤ i ∧ i < off + n then src.getD (i - off) 0 else dst i

/-- The `SDL_TEXTINPUT` branch of `main` (lines 225-236). -/
def appendText (s : EditorState) (text : List Int) : EditorState :=
  let text_size := strlen text
  let free_space := (BUFFER_CAPACITY + SIZE_T_MOD - s.buffer_size) % SIZE_T_MOD
  let text_size := if text_size > free_space then free_space else text_size
  let buffer := memcpy s.buffer s.buffer_size text text_size
  let buffer_size := (s.buffer_size + text_size) % SIZE_T_MOD
  { s with buffer := buffer, buffer_size := buffer_size, buffer_cursor := buffer_size }

/-- The `SDLK_BACKSPACE` branch of `main` (lines 213-220). -/
def backspace (s : EditorState) : EditorState :=
  if s.buffer_size > 0 then
    let buffer_size := s.buffer_size - 1
    { s with buffer_size := buffer_size, buffer_cursor := buffer_size }
  else s

/-- An event returned by `SDL_PollEvent`, as far as the `switch` of `main` reads it. -/
inductive Event where
  | quit
  | keydown (sym : Int)
  | textinput (text : List Int)
  | other
  deriving Repr

/-- The body of the event loop: `switch (event.type)` (lines 204-237). -/
def handle_event (s : EditorState) : Event → EditorState
  | .quit => { s with quit := true }
  | .keydown sym => if sym = SDLK_BACKSPACE then backspace s else s
  | .textinput text => appendText s text
  | .other => s

/-- The inner `while (SDL_PollEvent (&event))` loop over the pending events. -/
def poll_events (s : EditorState) (events : List Event) : EditorState :=
  events.foldl handle_event s

/-- The visible content: the first `buffer_size` characters of `buffer`. -/
def content (s : EditorState) : List Int :=
  (List.range s.buffer_size).map s.buffer

/-- A line-buffer operation of the spec: `appendText` or `backspace`. -/
inductive Op where
  | append (text : List Int)
  | backspace
  deriving Repr

/-- The event that triggers an operation. -/
def Op.toEvent : Op → Event
  | .append text => .textinput text
  | .backspace => .keydown SDLK_BACKSPACE

/-- Run a sequence of operations through the event switch. -/
def run_ops (s : EditorState) (ops : List Op) : EditorState :=
  poll_events s (ops.map Op.toEvent)

/-- Characters of an ASCII string as `char` values. -/
def chars (str : String) : List Int :=
  str.toList.map (fun c => (c.toNat : Int))

/-- The number `min (strlen text) (BUFFER_CAPACITY - size)` of characters that `appendText`
copies when the buffer holds `size` characters. -/
def copied (size : Nat) (text : List Int) : Nat :=
  min (strlen text) (BUFFER_CAPACITY - size)

/-- The full buffer reached by typing 1024 times the letter `'A'` on the empty buffer. -/
def full_state : EditorState := run_ops init_state [.append (List.replicate 1024 65)]

/-! ## Glyph atlas (`src/main.c`, lines 72-104) -/

/-- `SDL_Rect`: four `int` fields. -/
structure SDL_Rect where
  x : Int
  y : Int
  w : Int
  h : Int
  deriving DecidableEq, Repr

/-- Handle of a texture made by `SDL_CreateTextureFromSurface (renderer, surface)`;
the record keeps the renderer and the file the surface was decoded from. -/
structure SDL_Texture where
  renderer : Nat
  file_path : String
  deriving DecidableEq, Repr

/-- `Font`: the sprite sheet and `glyph_table[GLYPH_TABLE_LEN]`. -/
structure Font where
  spritesheet : SDL_Texture
  glyph_table : Nat → SDL_Rect

/-- The rectangle that the loop body (lines 92-100) stores for character code `ascii`. -/
def glyph_rect (ascii : Nat) : SDL_Rect :=
  let index := ascii - ASCII_DISPLAY_LOW
  let col := index % FONT_COLS
  let row := index / FONT_COLS
  { x := ((col * FONT_CHAR_WIDTH : Nat) : Int)
    y := ((row * FONT_CHAR_HEIGHT : Nat) : Int)
    w := (FONT_CHAR_WIDTH : Int)
    h := (FONT_CHAR_HEIGHT : Int) }

/-- One iteration of the loop of `font_load_from_file`:
`glyph_table[ascii - ASCII_DISPLAY_LOW] = rect`. -/
def glyph_table_store (table : Nat → SDL_Rect) (ascii : Nat) : Nat → SDL_Rect :=
  fun j => if j = ascii - ASCII_DISPLAY_LOW then glyph_rect ascii else table j

/-- `font_load_from_file` (lines 78-104): `Font font = {0}`, the texture, then the loop
`for (ascii = ASCII_DISPLAY_LOW; ascii <= ASCII_DISPLAY_HIGH; ++ascii)`. Decoding the
file and creating the texture are taken to succeed (otherwise the process exits). -/
def font_load_from_file (renderer : Nat) (file_path : String) : Font :=
  { spritesheet := { renderer := renderer, file_path := file_path }
    glyph_table :=
      (List.range' ASCII_DISPLAY_LOW (ASCII_DISPLAY_HIGH + 1 - ASCII_DISPLAY_LOW)).foldl
        glyph_table_store (fun _ => { x := 0, y := 0, w := 0, h := 0 }) }

/-! ## Rendering (`src/main.c`, lines 107-183 and 240-251) -/

/-- Round a rational to the nearest integer, ties to the even one. -/
def round_half_even (q : ℚ) : ℤ :=
  let f := Int.floor q
  let r := q - (f : ℚ)
  if r < 1 / 2 then f else if 1 / 2 < r then f + 1 else if f % 2 = 0 then f else f + 1

/-- Rounding of an exact result to binary32: the unit in the last place is
`2 ^ (e - 23)` where `2 ^ e ≤ |q| < 2 ^ (e + 1)` (24 significant bits), and never less
than `2 ^ (-149)` (subnormal range); the result is the nearest multiple of it, ties to
even. Overflow to infinity is not modelled. -/
def float_round (q : ℚ) : ℚ :=
  if q = 0 then 0
  else
    let ulp : ℚ := (2 : ℚ) ^ (max (Int.log 2 |q| - 23) (-149))
    (round_half_even (q / ulp) : ℚ) * ulp

/-- The `float` product `a * b`. -/
def float_mul (a b : ℚ) : ℚ := float_round (a * b)

/-- The `float` sum `a + b`. -/
def float_add (a b : ℚ) : ℚ := float_round (a + b)

/-- `floorf`: the largest integral `float` not above `x` (exact for every `float`). -/
def floorf (x : ℚ) : ℚ := (Int.floor x : ℚ)

def INT_MIN : Int := -2147483648
def INT_MAX : Int := 2147483647

/-- The cast `(int) x` of a `float`: truncation toward zero; a value outside the range
of `int` (undefined in C) gives `INT_MIN`, the result of the x86-64 conversion. -/
def int_of_float (x : ℚ) : Int :=
  let t : Int := if 0 ≤ x then Int.floor x else Int.ceil x
  if INT_MIN ≤ t ∧ t ≤ INT_MAX then t else INT_MIN

/-- Modelled from the spec: `Vec2f` of `la.h`, which is not among the sources; a
position with two `float` coordinates. -/
structure Vec2f where
  x : ℚ
  y : ℚ
  deriving DecidableEq

/-- Modelled from the spec: the constructor `vec2f (x, y)` of `la.h`. -/
def vec2f (x y : ℚ) : Vec2f := { x := x, y := y }

/-- The SDL calls the drawing code issues, in order. -/
inductive SDLCall where
  | SetTextureColorMod (texture : SDL_Texture) (r g b : Nat)
  | SetTextureAlphaMod (texture : SDL_Texture) (a : Nat)
  | RenderCopy (texture : SDL_Texture) (src dst : SDL_Rect)
  | SetRenderDrawColor (r g b a : Nat)
  | RenderClear
  | RenderFillRect (rect : SDL_Rect)
  | RenderPresent
  deriving DecidableEq

/-- Ways in which drawing a character stops the program. -/
inductive RenderError where
  | assert_low
  | assert_high
  | out_of_bounds
  deriving DecidableEq, Repr

/-- The destination rectangle `dst` that `render_char` computes (lines 109-114):
`(int) floorf (...)` of the position and of the `float` products
`FONT_CHAR_WIDTH * scale` and `FONT_CHAR_HEIGHT * scale`. -/
def char_dst (pos : Vec2f) (scale : ℚ) : SDL_Rect :=
  { x := int_of_float (floorf pos.x)
    y := int_of_float (floorf pos.y)
    w := int_of_float (floorf (float_mul (FONT_CHAR_WIDTH : ℚ) scale))
    h := int_of_float (floorf (float_mul (FONT_CHAR_HEIGHT : ℚ) scale)) }

/-- `render_char` (lines 107-125). The destination rectangle is computed first, then
the two assertions are checked, then the index is formed as a `size_t` and
`glyph_table[index]` is read for the blit. A read at an index outside the table is
reported as `out_of_bounds`. -/
def render_char (font : Font) (c : Int) (pos : Vec2f) (scale : ℚ) :
    Except RenderError SDLCall :=
  let dst : SDL_Rect := char_dst pos scale
  if ¬ (c ≥ (ASCII_DISPLAY_LOW : Int)) then .error .assert_low
  else if ¬ (c ≤ (ASCII_DISPLAY_HIGH : Int)) then .error .assert_high
  else
    let index : Nat := ((c - (ASCII_DISPLAY_LOW : Int)) % (SIZE_T_MOD : Int)).toNat
    if index < GLYPH_TABLE_LEN then
      .ok (.RenderCopy font.spritesheet (font.glyph_table index) dst)
    else .error .out_of_bounds

/-- The loop of `render_text_sized` (lines 141-146): `n` iterations remain, the next
index is `i`, the pen is at `pen`; `pen.x += FONT_CHAR_WIDTH * scale` is a `float`
product followed by a `float` sum. -/
def render_text_loop (font : Font) (text : Nat → Int) (scale : ℚ) :
    Nat → Nat → Vec2f → Except RenderError (List SDLCall)
  | 0, _, _ => .ok []
  | n + 1, i, pen =>
    match render_char font (text i) pen scale with
    | .error e => .error e
    | .ok call =>
      match render_text_loop font text scale n (i + 1)
          { pen with x := float_add pen.x (float_mul (FONT_CHAR_WIDTH : ℚ) scale) } with
      | .error e => .error e
      | .ok calls => .ok (call :: calls)

/-- `render_text_sized` (lines 128-147): colour and alpha modulation from the bytes of
`color`, then one `render_char` per index `0 .. text_size - 1`. -/
def render_text_sized (font : Font) (text : Nat → Int) (text_size : Nat) (pos : Vec2f)
    (color : Nat) (scale : ℚ) : Except RenderError (List SDLCall) :=
  match render_text_loop font text scale text_size 0 pos with
  | .error e => .error e
  | .ok calls =>
    .ok (.SetTextureColorMod font.spritesheet
          (color / 2 ^ (8 * 0) % 256) (color / 2 ^ (8 * 1) % 256) (color / 2 ^ (8 * 2) % 256)
        :: .SetTextureAlphaMod font.spritesheet (color / 2 ^ (8 * 3) % 256)
        :: calls)

/-- The rectangle `render_cursor` fills (lines 171-176). The product
`buffer_cursor * FONT_CHAR_WIDTH * FONT_SCALE` is a `size_t`, converted (with rounding)
to `float` for `floorf`. -/
def cursor_rect (buffer_cursor : Nat) : SDL_Rect :=
  { x := int_of_float (floorf (float_round
      ((buffer_cursor * FONT_CHAR_WIDTH * FONT_SCALE % SIZE_T_MOD : Nat) : ℚ)))
    y := 0
    w := ((FONT_CHAR_WIDTH * FONT_SCALE : Nat) : Int)
    h := ((FONT_CHAR_HEIGHT * FONT_SCALE : Nat) : Int) }

/-- `render_cursor` (lines 169-183). -/
def render_cursor (s : EditorState) (color : Nat) : List SDLCall :=
  [ .SetRenderDrawColor (color / 2 ^ (8 * 0) % 256) (color / 2 ^ (8 * 1) % 256)
      (color / 2 ^ (8 * 2) % 256) (color / 2 ^ (8 * 3) % 256),
    .RenderFillRect (cursor_rect s.buffer_cursor) ]

/-- The redraw of `main` (lines 240-251): clear, text, cursor, present. -/
def redraw (font : Font) (s : EditorState) : Except RenderError (List SDLCall) :=
  match render_text_sized font s.buffer s.buffer_size (vec2f 0 0) 0xFFFFFFFF
      (FONT_SCALE : ℚ) with
  | .error e => .error e
  | .ok calls =>
    .ok ([.SetRenderDrawColor 0 0 0 0, .RenderClear] ++ calls
        ++ render_cursor s 0xFFFFFFFF ++ [.RenderPresent])

/-- One pass of the outer loop of `main`: drain the events, then redraw. -/
def frame (font : Font) (s : EditorState) (events : List Event) :
    EditorState × Except RenderError (List SDLCall) :=
  let s1 := poll_events s events
  (s1, redraw font s1)

/-- The invariant of the line buffer: the cursor stands at the end of the text and the
text fits the buffer. -/
def WellFormed (s : EditorState) : Prop :=
  s.buffer_cursor = s.buffer_size ∧ s.buffer_size ≤ BUFFER_CAPACITY

/-- The table the loop of `font_load_from_file` builds, apart from the font record. -/
def built_glyph_table : Nat → SDL_Rect :=
  (List.range' ASCII_DISPLAY_LOW (ASCII_DISPLAY_HIGH + 1 - ASCII_DISPLAY_LOW)).foldl
    glyph_table_store (fun _ => { x := 0, y := 0, w := 0, h := 0 })

/-- The text-input event for the letter e with acute accent: SDL delivers its UTF-8
encoding, the bytes `0xC3 0xA9`, which are the `char` values `-61` and `-87`. -/
def e_acute_input : Event := .textinput [-61, -87]

/-- The text `"AB"` as a `const char *`: the characters, then NULs. -/
def text_AB : Nat → Int := fun i => (chars "AB").getD i 0

/-- The state after typing "AB" on the empty buffer. -/
def state_AB : EditorState := run_ops init_state [.append (chars "AB")]

/-! ## Auxiliary facts -/

theorem strlen_le_length (text : List Int) : strlen text ≤ text.length := by
  unfold strlen
  exact (List.takeWhile_sublist _).length_le

theorem strlen_of_nul_free (text : List Int) (h : ∀ c ∈ text, c ≠ 0) :
    strlen text = text.length := by
  unfold strlen
  induction text with
  | nil => rfl
  | cons a t ih =>
    have ha : a ≠ 0 := h a (List.mem_cons_self a t)
    have ht : ∀ c ∈ t, c ≠ 0 := fun c hc => h c (List.mem_cons_of_mem a hc)
    have ih2 := ih ht
    simp only [List.takeWhile_cons, decide_eq_true_eq.mpr ha, if_true, List.length_cons, ih2]

theorem appendText_eq (s : EditorState) (text : List Int)
    (h : s.buffer_size ≤ BUFFER_CAPACITY) :
    appendText s text =
      { s with
        buffer := memcpy s.buffer s.buffer_size text (copied s.buffer_size text)
        buffer_size := s.buffer_size + copied s.buffer_size text
        buffer_cursor := s.buffer_size + copied s.buffer_size text } := by
  have hfree : (BUFFER_CAPACITY + SIZE_T_MOD - s.buffer_size) % SIZE_T_MOD
      = BUFFER_CAPACITY - s.buffer_size := by
    unfold BUFFER_CAPACITY SIZE_T_MOD at *
    omega
  have hn : (if strlen text > BUFFER_CAPACITY - s.buffer_size
      then BUFFER_CAPACITY - s.buffer_size else strlen text) = copied s.buffer_size text := by
    unfold copied
    split <;> omega
  have hmod : (s.buffer_size + copied s.buffer_size text) % SIZE_T_MOD
      = s.buffer_size + copied s.buffer_size text := by
    unfold copied BUFFER_CAPACITY SIZE_T_MOD at *
    omega
  unfold appendText
  simp only [hfree, hn, hmod]

theorem content_memcpy (buf : Nat → Int) (size n : Nat) (text : List Int)
    (hn : n ≤ text.length) :
    (List.range (size + n)).map (memcpy buf size text n)
      = (List.range size).map buf ++ text.take n := by
  apply List.ext_getElem
  · simp [List.length_take, hn]
  · intro i h1 h2
    simp only [List.length_map, List.length_range] at h1
    simp only [List.getElem_map, List.getElem_range, memcpy]
    by_cases hi : i < size
    · rw [List.getElem_append_left (by simpa using hi)]
      simp [hi, Nat.not_le.mpr hi]
    · have hi2 : size ≤ i := Nat.le_of_not_lt hi
      rw [List.getElem_append_right (by simpa using hi2)]
      simp only [List.length_map, List.length_range, List.getElem_take]
      rw [if_pos ⟨hi2, h1⟩, List.getD_eq_getElem _ _ (by omega)]

theorem appendText_wellFormed (s : EditorState) (text : List Int) (h : WellFormed s) :
    WellFormed (appendText s text) := by
  unfold WellFormed at *
  rw [appendText_eq s text h.2]
  refine ⟨rfl, ?_⟩
  show s.buffer_size + copied s.buffer_size text ≤ BUFFER_CAPACITY
  unfold copied
  omega

theorem backspace_wellFormed (s : EditorState) (h : WellFormed s) :
    WellFormed (backspace s) := by
  unfold WellFormed backspace at *
  split
  · exact ⟨rfl, by show s.buffer_size - 1 ≤ BUFFER_CAPACITY; omega⟩
  · exact h

theorem handle_event_wellFormed (s : EditorState) (e : Event) (h : WellFormed s) :
    WellFormed (handle_event s e) := by
  cases e with
  | quit => exact h
  | keydown sym =>
    show WellFormed (if sym = SDLK_BACKSPACE then backspace s else s)
    split
    · exact backspace_wellFormed s h
    · exact h
  | textinput text => exact appendText_wellFormed s text h
  | other => exact h

theorem poll_events_wellFormed (events : List Event) :
    ∀ s : EditorState, WellFormed s → WellFormed (poll_events s events) := by
  induction events with
  | nil => intro s h; exact h
  | cons e es ih =>
    intro s h
    exact ih (handle_event s e) (handle_event_wellFormed s e h)

/-! ## Line buffer: the claims -/

/-- C1: for every state with `buffer_size ≤ 1024` and every NUL-free input of length
`N`, the visible content after `appendText` is the old visible content followed by the
first `min N (1024 - buffer_size)` characters of the input, the size grows by that
number, and the cursor is set to the new size. -/
theorem appendText_appends_truncated (s : EditorState) (text : List Int)
    (hsize : s.buffer_size ≤ BUFFER_CAPACITY) (hnul : ∀ c ∈ text, c ≠ 0) :
    content (appendText s text)
        = content s ++ text.take (min text.length (BUFFER_CAPACITY - s.buffer_size))
      ∧ (appendText s text).buffer_size
        = s.buffer_size + min text.length (BUFFER_CAPACITY - s.buffer_size)
      ∧ (appendText s text).buffer_cursor = (appendText s text).buffer_size := by
  rw [appendText_eq s text hsize]
  have hc : copied s.buffer_size text = min text.length (BUFFER_CAPACITY - s.buffer_size) := by
    unfold copied
    rw [strlen_of_nul_free text hnul]
  refine ⟨?_, ?_, rfl⟩
  · show (List.range (s.buffer_size + copied s.buffer_size text)).map
        (memcpy s.buffer s.buffer_size text (copied s.buffer_size text)) = _
    rw [content_memcpy _ _ _ _ (by rw [hc]; exact Nat.min_le_left _ _), hc]
    rfl
  · show s.buffer_size + copied s.buffer_size text = _
    rw [hc]

/-- C1, scenario of the spec: on the empty buffer, append "Hello", backspace, then
append " World": the size is 10, the cursor 10 and the content "Hell World". -/
theorem appendText_appends_truncated_witness :
    (run_ops init_state [.append (chars "Hello"), .backspace]).buffer_size ≤ BUFFER_CAPACITY
      ∧ content (appendText (run_ops init_state [.append (chars "Hello"), .backspace])
          (chars " World")) = chars "Hell World"
      ∧ (appendText (run_ops init_state [.append (chars "Hello"), .backspace])
          (chars " World")).buffer_size = 10
      ∧ (appendText (run_ops init_state [.append (chars "Hello"), .backspace])
          (chars " World")).buffer_cursor = 10 := by
  have h := appendText_appends_truncated
    (run_ops init_state [.append (chars "Hello"), .backspace]) (chars " World")
    (by decide) (by decide)
  refine ⟨by decide, ?_, ?_, ?_⟩
  · rw [h.1]; decide
  · rw [h.2.1]; decide
  · rw [h.2.2, h.2.1]; decide

theorem full_state_size : full_state.buffer_size = BUFFER_CAPACITY := by
  have hnul : ∀ c ∈ List.replicate 1024 (65 : Int), c ≠ 0 := by
    intro c hc
    rw [List.eq_of_mem_replicate hc]
    decide
  have hlen : strlen (List.replicate 1024 (65 : Int)) = 1024 := by
    rw [strlen_of_nul_free _ hnul, List.length_replicate]
  show (appendText init_state (List.replicate 1024 65)).buffer_size = BUFFER_CAPACITY
  rw [appendText_eq init_state _ (by decide)]
  show init_state.buffer_size + copied init_state.buffer_size (List.replicate 1024 65)
    = BUFFER_CAPACITY
  unfold copied
  rw [hlen]
  decide

/-- C2: for every state of the line buffer (cursor at the end of the text, as in every
state the program reaches) with `buffer_size ≤ 1024` and every input of length
`N = strlen text`, the new size is `size + min N (1024 - size)` and is at most 1024;
when the free space `F = 1024 - size` is smaller than `N` the size grows by exactly `F`;
only cells below 1024 are written; and on a full buffer (`size = 1024`) appending any
text leaves the size, the cursor and every buffer character unchanged. -/
theorem appendText_never_exceeds_capacity (s : EditorState) (text : List Int)
    (hsize : s.buffer_size ≤ BUFFER_CAPACITY) (hcursor : s.buffer_cursor = s.buffer_size) :
    (appendText s text).buffer_size
        = s.buffer_size + min (strlen text) (BUFFER_CAPACITY - s.buffer_size)
      ∧ (appendText s text).buffer_size ≤ BUFFER_CAPACITY
      ∧ (BUFFER_CAPACITY - s.buffer_size < strlen text →
          (appendText s text).buffer_size = s.buffer_size + (BUFFER_CAPACITY - s.buffer_size))
      ∧ (∀ i, (appendText s text).buffer i ≠ s.buffer i → i < BUFFER_CAPACITY)
      ∧ (s.buffer_size = BUFFER_CAPACITY →
          (appendText s text).buffer_size = s.buffer_size
            ∧ (appendText s text).buffer_cursor = s.buffer_cursor
            ∧ ∀ i, (appendText s text).buffer i = s.buffer i) := by
  rw [appendText_eq s text hsize]
  have hc : copied s.buffer_size text = min (strlen text) (BUFFER_CAPACITY - s.buffer_size) :=
    rfl
  simp only
  refine ⟨by rw [hc], by rw [hc]; omega, ?_, ?_, ?_⟩
  · intro hlt
    rw [hc]; omega
  · intro i hne
    by_contra hge
    apply hne
    unfold memcpy
    rw [if_neg]
    rw [hc]; omega
  · intro hfull
    have h0 : copied s.buffer_size text = 0 := by rw [hc]; omega
    rw [h0]
    refine ⟨by omega, by omega, fun i => ?_⟩
    unfold memcpy
    rw [if_neg]
    omega

/-- C2, scenario of the spec: on the full buffer reached by typing 1024 letters,
appending "X" leaves the size at 1024, the cursor where it was and every character
as it was. -/
theorem appendText_never_exceeds_capacity_witness :
    full_state.buffer_size ≤ BUFFER_CAPACITY
      ∧ full_state.buffer_cursor = full_state.buffer_size
      ∧ (appendText full_state (chars "X")).buffer_size = 1024
      ∧ (appendText full_state (chars "X")).buffer_cursor = full_state.buffer_cursor
      ∧ ∀ i, (appendText full_state (chars "X")).buffer i = full_state.buffer i := by
  have hwf : WellFormed full_state := poll_events_wellFormed _ init_state ⟨rfl, by decide⟩
  have h := appendText_never_exceeds_capacity full_state (chars "X") hwf.2 hwf.1
  have hfull := h.2.2.2.2 full_state_size
  exact ⟨hwf.2, hwf.1, hfull.1.trans full_state_size, hfull.2.1, hfull.2.2⟩

/-- C3: for every state with `buffer_size > 0`, `backspace` decrements the size by
exactly 1, sets the cursor to the new size, leaves every buffer character in place, and
the new visible content is the old one without its last character; for a state with
`buffer_size = 0` it returns the state unchanged. -/
theorem backspace_removes_last (s : EditorState) :
    (s.buffer_size > 0 →
        (backspace s).buffer_size + 1 = s.buffer_size
          ∧ (backspace s).buffer_cursor = (backspace s).buffer_size
          ∧ (backspace s).buffer = s.buffer
          ∧ content (backspace s) = (content s).dropLast
          ∧ content s = content (backspace s) ++ [s.buffer (s.buffer_size - 1)])
      ∧ (s.buffer_size = 0 → backspace s = s) := by
  constructor
  · intro hpos
    unfold backspace
    rw [if_pos hpos]
    simp only [content]
    obtain ⟨n, hn⟩ : ∃ n, s.buffer_size = n + 1 := ⟨s.buffer_size - 1, by omega⟩
    rw [hn]
    refine ⟨by omega, trivial, trivial, ?_, ?_⟩
    · simp [List.range_succ]
    · simp [List.range_succ]
  · intro hzero
    unfold backspace
    rw [if_neg (by omega)]

/-- C4: from the initial state (size 0, cursor 0), after every finite sequence of
`appendText` (with arbitrary texts) and `backspace` operations the cursor equals the
size, and `0 ≤ cursor ≤ size ≤ 1024`. -/
theorem cursor_eq_size_reachable (ops : List Op) :
    (run_ops init_state ops).buffer_cursor = (run_ops init_state ops).buffer_size
      ∧ 0 ≤ (run_ops init_state ops).buffer_cursor
      ∧ (run_ops init_state ops).buffer_cursor ≤ (run_ops init_state ops).buffer_size
      ∧ (run_ops init_state ops).buffer_size ≤ BUFFER_CAPACITY := by
  have h : WellFormed (run_ops init_state ops) :=
    poll_events_wellFormed _ init_state ⟨rfl, by decide⟩
  exact ⟨h.1, Nat.zero_le _, Nat.le_of_eq h.1, h.2⟩

/-! ## Glyph atlas: the claims -/

theorem font_glyph_table (renderer : Nat) (file_path : String) :
    (font_load_from_file renderer file_path).glyph_table = built_glyph_table := rfl

set_option maxRecDepth 100000 in
theorem built_glyph_table_eq :
    ∀ i, i < GLYPH_TABLE_LEN → built_glyph_table i = glyph_rect (i + ASCII_DISPLAY_LOW) := by
  decide

theorem glyph_rect_eq (c : Nat) :
    glyph_rect c =
      { x := (((c - 32) % 18 * 7 : Nat) : Int), y := (((c - 32) / 18 * 9 : Nat) : Int),
        w := 7, h := 9 } := rfl

theorem font_glyph_table_at (renderer : Nat) (file_path : String) (c : Nat)
    (hlow : 32 ≤ c) (hhigh : c ≤ 126) :
    (font_load_from_file renderer file_path).glyph_table (c - 32) = glyph_rect c := by
  have hlen : c - 32 < GLYPH_TABLE_LEN := by
    unfold GLYPH_TABLE_LEN ASCII_DISPLAY_HIGH ASCII_DISPLAY_LOW
    omega
  rw [font_glyph_table, built_glyph_table_eq (c - 32) hlen]
  congr 1
  unfold ASCII_DISPLAY_LOW
  omega

/-- C5: for every code `c` with `32 ≤ c ≤ 126` the entry `c - 32` of the table built by
`font_load_from_file` is `(((c-32) mod 18) * 7, ((c-32) div 18) * 9, 7, 9)`, where
`7 = 128 div 18` and `9 = 64 div 7` are the cell width and height; the table is the same
for every renderer and file; and the entries of two distinct codes in the range are
distinct. -/
theorem glyph_table_grid (renderer : Nat) (file_path : String) (c : Nat)
    (hlow : 32 ≤ c) (hhigh : c ≤ 126) :
    (font_load_from_file renderer file_path).glyph_table (c - 32)
        = { x := (((c - 32) % 18 * 7 : Nat) : Int), y := (((c - 32) / 18 * 9 : Nat) : Int),
            w := 7, h := 9 }
      ∧ FONT_CHAR_WIDTH = 128 / 18 ∧ FONT_CHAR_WIDTH = 7
      ∧ FONT_CHAR_HEIGHT = 64 / 7 ∧ FONT_CHAR_HEIGHT = 9
      ∧ (∀ (renderer2 : Nat) (file_path2 : String),
          (font_load_from_file renderer2 file_path2).glyph_table
            = (font_load_from_file renderer file_path).glyph_table)
      ∧ (∀ d : Nat, 32 ≤ d → d ≤ 126 → d ≠ c →
          (font_load_from_file renderer file_path).glyph_table (d - 32)
            ≠ (font_load_from_file renderer file_path).glyph_table (c - 32)) := by
  refine ⟨?_, rfl, rfl, rfl, rfl, fun _ _ => rfl, ?_⟩
  · rw [font_glyph_table_at renderer file_path c hlow hhigh, glyph_rect_eq]
  · intro d hdlow hdhigh hne heq
    rw [font_glyph_table_at renderer file_path c hlow hhigh,
      font_glyph_table_at renderer file_path d hdlow hdhigh, glyph_rect_eq, glyph_rect_eq] at heq
    injection heq with hx hy
    omega

/-- C5 at `'A'` (code 65, index 33, column 15, row 1): the rectangle is `(105, 9, 7, 9)`. -/
theorem glyph_table_grid_witness :
    (font_load_from_file 0 "./charmap_white.png").glyph_table (65 - 32)
      = { x := 105, y := 9, w := 7, h := 9 } :=
  (glyph_table_grid 0 "./charmap_white.png" 65 (by decide) (by decide)).1

/-- C10: for every code `c` in `[32, 126]` the rectangle of `glyph_table[c - 32]` lies
inside the 128 x 64 sheet (`0 ≤ x`, `x + w ≤ 128`, `0 ≤ y`, `y + h ≤ 64`), although the
cells do not tile the sheet exactly (`18 * 7 < 128`, `7 * 9 < 64`); and the rectangles of
two distinct codes in the range have disjoint interiors. -/
theorem glyph_rects_inside_and_disjoint (renderer : Nat) (file_path : String) (c : Nat)
    (hlow : 32 ≤ c) (hhigh : c ≤ 126) :
    (0 ≤ ((font_load_from_file renderer file_path).glyph_table (c - 32)).x
        ∧ ((font_load_from_file renderer file_path).glyph_table (c - 32)).x
            + ((font_load_from_file renderer file_path).glyph_table (c - 32)).w
          ≤ (FONT_WIDTH : Int)
        ∧ 0 ≤ ((font_load_from_file renderer file_path).glyph_table (c - 32)).y
        ∧ ((font_load_from_file renderer file_path).glyph_table (c - 32)).y
            + ((font_load_from_file renderer file_path).glyph_table (c - 32)).h
          ≤ (FONT_HEIGHT : Int))
      ∧ FONT_COLS * FONT_CHAR_WIDTH < FONT_WIDTH
      ∧ FONT_ROWS * FONT_CHAR_HEIGHT < FONT_HEIGHT
      ∧ (∀ d : Nat, 32 ≤ d → d ≤ 126 → d ≠ c →
          ((font_load_from_file renderer file_path).glyph_table (c - 32)).x
              + ((font_load_from_file renderer file_path).glyph_table (c - 32)).w
            ≤ ((font_load_from_file renderer file_path).glyph_table (d - 32)).x
          ∨ ((font_load_from_file renderer file_path).glyph_table (d - 32)).x
              + ((font_load_from_file renderer file_path).glyph_table (d - 32)).w
            ≤ ((font_load_from_file renderer file_path).glyph_table (c - 32)).x
          ∨ ((font_load_from_file renderer file_path).glyph_table (c - 32)).y
              + ((font_load_from_file renderer file_path).glyph_table (c - 32)).h
            ≤ ((font_load_from_file renderer file_path).glyph_table (d - 32)).y
          ∨ ((font_load_from_file renderer file_path).glyph_table (d - 32)).y
              + ((font_load_from_file renderer file_path).glyph_table (d - 32)).h
            ≤ ((font_load_from_file renderer file_path).glyph_table (c - 32)).y) := by
  have hw : (FONT_WIDTH : Int) = 128 := rfl
  have hh : (FONT_HEIGHT : Int) = 64 := rfl
  rw [font_glyph_table_at renderer file_path c hlow hhigh, glyph_rect_eq, hw, hh]
  refine ⟨⟨?_, ?_, ?_, ?_⟩, by decide, by decide, ?_⟩
  · show (0 : Int) ≤ (((c - 32) % 18 * 7 : Nat) : Int)
    omega
  · show (((c - 32) % 18 * 7 : Nat) : Int) + 7 ≤ 128
    omega
  · show (0 : Int) ≤ (((c - 32) / 18 * 9 : Nat) : Int)
    omega
  · show (((c - 32) / 18 * 9 : Nat) : Int) + 9 ≤ 64
    omega
  · intro d hdlow hdhigh hne
    rw [font_glyph_table_at renderer file_path d hdlow hdhigh, glyph_rect_eq]
    show (((c - 32) % 18 * 7 : Nat) : Int) + 7 ≤ (((d - 32) % 18 * 7 : Nat) : Int)
      ∨ (((d - 32) % 18 * 7 : Nat) : Int) + 7 ≤ (((c - 32) % 18 * 7 : Nat) : Int)
      ∨ (((c - 32) / 18 * 9 : Nat) : Int) + 9 ≤ (((d - 32) / 18 * 9 : Nat) : Int)
      ∨ (((d - 32) / 18 * 9 : Nat) : Int) + 9 ≤ (((c - 32) / 18 * 9 : Nat) : Int)
    omega

/-- C10 at `'~'` (code 126, the last cell: column 4, row 5) against `'A'`: the
rectangle `(28, 45, 7, 9)` lies inside the sheet and is disjoint from that of `'A'`. -/
theorem glyph_rects_inside_and_disjoint_witness :
    ((font_load_from_file 0 "./charmap_white.png").glyph_table (126 - 32)).x
          + ((font_load_from_file 0 "./charmap_white.png").glyph_table (126 - 32)).w ≤ 128
      ∧ ((font_load_from_file 0 "./charmap_white.png").glyph_table (126 - 32)).y
          + ((font_load_from_file 0 "./charmap_white.png").glyph_table (126 - 32)).h ≤ 64 :=
  ⟨(glyph_rects_inside_and_disjoint 0 "./charmap_white.png" 126 (by decide) (by decide)).1.2.1,
   (glyph_rects_inside_and_disjoint 0 "./charmap_white.png" 126 (by decide) (by decide)).1.2.2.2⟩

/-! ## Rendering: the claims -/

theorem render_char_ok (font : Font) (c : Int) (pos : Vec2f) (scale : ℚ)
    (hlow : 32 ≤ c) (hhigh : c ≤ 126) :
    render_char font c pos scale
      = .ok (.RenderCopy font.spritesheet (font.glyph_table (c - 32).toNat)
          (char_dst pos scale)) := by
  have hidx : ((c - (ASCII_DISPLAY_LOW : Int)) % (SIZE_T_MOD : Int)).toNat = (c - 32).toNat := by
    have h1 : (ASCII_DISPLAY_LOW : Int) = 32 := rfl
    have h2 : (SIZE_T_MOD : Int) = 18446744073709551616 := rfl
    rw [h1, h2, Int.emod_eq_of_lt (by omega) (by omega)]
  have hlt : (c - 32).toNat < GLYPH_TABLE_LEN := by
    unfold GLYPH_TABLE_LEN ASCII_DISPLAY_HIGH ASCII_DISPLAY_LOW
    omega
  have hl : c ≥ (ASCII_DISPLAY_LOW : Int) := hlow
  have hh : c ≤ (ASCII_DISPLAY_HIGH : Int) := hhigh
  unfold render_char
  simp only [hidx, hlt, hl, hh, not_true_eq_false, if_false, if_true]

theorem render_char_low (font : Font) (c : Int) (pos : Vec2f) (scale : ℚ) (h : c < 32) :
    render_char font c pos scale = .error .assert_low := by
  have hl : ¬ (c ≥ (ASCII_DISPLAY_LOW : Int)) := by
    have h1 : (ASCII_DISPLAY_LOW : Int) = 32 := rfl
    rw [h1]; omega
  unfold render_char
  simp only [hl, not_false_eq_true, if_true]

theorem render_char_high (font : Font) (c : Int) (pos : Vec2f) (scale : ℚ) (h : 126 < c) :
    render_char font c pos scale = .error .assert_high := by
  have hl : c ≥ (ASCII_DISPLAY_LOW : Int) := by
    have h1 : (ASCII_DISPLAY_LOW : Int) = 32 := rfl
    rw [h1]; omega
  have hh : ¬ (c ≤ (ASCII_DISPLAY_HIGH : Int)) := by
    have h1 : (ASCII_DISPLAY_HIGH : Int) = 126 := rfl
    rw [h1]; omega
  unfold render_char
  simp only [hl, hh, not_true_eq_false, not_false_eq_true, if_false, if_true]

/-- C6: for every `char` value `c` (any integer, so the signed range `-128 .. 127` and
the unsigned one alike), `render_char` reads `glyph_table` and blits only if
`32 ≤ c ≤ 126`, and then the index is `c - 32 < 95`; for `c < 32` (negative values
included) it stops at the first assertion and for `c > 126` at the second, so no read
outside the table happens. -/
theorem render_char_rejects_out_of_range (font : Font) (c : Int) (pos : Vec2f) (scale : ℚ) :
    GLYPH_TABLE_LEN = 95
      ∧ (32 ≤ c ∧ c ≤ 126 →
          (c - 32).toNat < GLYPH_TABLE_LEN ∧ ((c - 32).toNat : Int) = c - 32
            ∧ render_char font c pos scale
              = .ok (.RenderCopy font.spritesheet (font.glyph_table (c - 32).toNat)
                  (char_dst pos scale)))
      ∧ (c < 32 → render_char font c pos scale = .error .assert_low)
      ∧ (126 < c → render_char font c pos scale = .error .assert_high)
      ∧ (∀ call, render_char font c pos scale = .ok call → 32 ≤ c ∧ c ≤ 126)
      ∧ render_char font c pos scale ≠ .error .out_of_bounds := by
  refine ⟨rfl, ?_, render_char_low font c pos scale, render_char_high font c pos scale, ?_, ?_⟩
  · intro h
    refine ⟨?_, by omega, render_char_ok font c pos scale h.1 h.2⟩
    unfold GLYPH_TABLE_LEN ASCII_DISPLAY_HIGH ASCII_DISPLAY_LOW
    omega
  · intro call hcall
    by_contra hout
    rcases Int.lt_or_le c 32 with hlt | hge
    · rw [render_char_low font c pos scale hlt] at hcall
      cases hcall
    · have hgt : 126 < c := by omega
      rw [render_char_high font c pos scale hgt] at hcall
      cases hcall
  · rcases Int.lt_or_le c 32 with hlt | hge
    · rw [render_char_low font c pos scale hlt]
      intro h; cases h
    · rcases Int.lt_or_le 126 c with hgt | hle
      · rw [render_char_high font c pos scale hgt]
        intro h; cases h
      · rw [render_char_ok font c pos scale hge hle]
        intro h; cases h

/-- C7, the failing input: on the initially empty buffer the text-input event for the
letter e with acute accent stores the `char` values `-61`, `-87` unchanged, and the redraw
of the same frame stops at the assertion `c >= ASCII_DISPLAY_LOW` of `render_char`. -/
theorem redraw_asserts_on_utf8_input :
    content (poll_events init_state [e_acute_input]) = [-61, -87]
      ∧ (frame (font_load_from_file 0 "./charmap_white.png") init_state [e_acute_input]).2
        = .error .assert_low := by
  refine ⟨by decide, ?_⟩
  have h : render_char (font_load_from_file 0 "./charmap_white.png") (-61) (vec2f 0 0)
      (FONT_SCALE : ℚ) = .error .assert_low := render_char_low _ _ _ _ (by decide)
  have hb : (poll_events init_state [e_acute_input]).buffer 0 = -61 := by decide
  have hs : (poll_events init_state [e_acute_input]).buffer_size = 1 + 1 := by decide
  unfold frame redraw render_text_sized
  simp only [hs, render_text_loop, hb, h]

/-! ### Exactness of `float` arithmetic on small dyadic numbers -/

theorem round_half_even_intCast (n : ℤ) : round_half_even (n : ℚ) = n := by
  unfold round_half_even
  simp

theorem float_round_dyadic (m : ℤ) (k : ℕ) (hm : |m| < 2 ^ 24) (hk : k ≤ 149) :
    float_round ((m : ℚ) / 2 ^ k) = (m : ℚ) / 2 ^ k := by
  by_cases hm0 : m = 0
  · simp [float_round, hm0]
  have h2k : (0 : ℚ) < 2 ^ k := by positivity
  have hq : (m : ℚ) / 2 ^ k ≠ 0 := by
    have : (m : ℚ) ≠ 0 := by exact_mod_cast hm0
    positivity
  have habs : |(m : ℚ) / 2 ^ k| < (2 : ℚ) ^ ((24 : ℤ) - (k : ℤ)) := by
    rw [abs_div, abs_of_pos h2k, zpow_sub₀ (by norm_num), zpow_natCast]
    apply div_lt_div_of_pos_right _ h2k
    have : ((|m| : ℤ) : ℚ) < ((2 ^ 24 : ℤ) : ℚ) := by exact_mod_cast hm
    rw [Int.cast_abs] at this
    exact_mod_cast this
  have hlog : Int.log 2 |(m : ℚ) / 2 ^ k| < 24 - (k : ℤ) :=
    (Int.lt_zpow_iff_log_lt (b := 2) (by norm_num) (abs_pos.mpr hq)).mp (by simpa using habs)
  set g : ℤ := max (Int.log 2 |(m : ℚ) / 2 ^ k| - 23) (-149) with hg
  have hgk : g ≤ -(k : ℤ) := by
    rw [hg]
    apply max_le <;> omega
  obtain ⟨d, hd⟩ : ∃ d : ℕ, (d : ℤ) = -(k : ℤ) - g := ⟨(-(k : ℤ) - g).toNat, by omega⟩
  have hquot : (m : ℚ) / 2 ^ k / (2 : ℚ) ^ g = ((m * 2 ^ d : ℤ) : ℚ) := by
    have hgd : g = -(k : ℤ) - (d : ℤ) := by omega
    rw [hgd, zpow_sub₀ (by norm_num), zpow_neg, zpow_natCast, zpow_natCast]
    push_cast
    field_simp
    ring
  unfold float_round
  rw [if_neg hq]
  simp only []
  rw [← hg, hquot, round_half_even_intCast, ← hquot]
  have : (2 : ℚ) ^ g ≠ 0 := by positivity
  field_simp
  ring

theorem floor_dyadic_bounds (m : ℤ) (k : ℕ) (hm : |m| < 2 ^ 24) :
    INT_MIN ≤ Int.floor ((m : ℚ) / 2 ^ k) ∧ Int.floor ((m : ℚ) / 2 ^ k) ≤ INT_MAX := by
  have h1 : (1 : ℚ) ≤ 2 ^ k := one_le_pow₀ (by norm_num)
  have hx : |(m : ℚ) / 2 ^ k| ≤ |(m : ℚ)| := by
    rw [abs_div, abs_of_pos (by positivity : (0 : ℚ) < 2 ^ k)]
    exact div_le_self (abs_nonneg _) h1
  have hmq : |(m : ℚ)| < 16777216 := by
    have : ((|m| : ℤ) : ℚ) < ((2 ^ 24 : ℤ) : ℚ) := by exact_mod_cast hm
    rw [Int.cast_abs] at this
    exact_mod_cast this
  have hlt := abs_lt.mp (lt_of_le_of_lt hx hmq)
  constructor
  · apply Int.le_floor.mpr
    have : ((INT_MIN : ℤ) : ℚ) = -2147483648 := by norm_num [INT_MIN]
    rw [this]
    linarith [hlt.1]
  · have hf : ((Int.floor ((m : ℚ) / 2 ^ k) : ℤ) : ℚ) < 16777216 :=
      lt_of_le_of_lt (Int.floor_le _) hlt.2
    have : Int.floor ((m : ℚ) / 2 ^ k) < 16777216 := by exact_mod_cast hf
    unfold INT_MAX
    omega

theorem int_of_float_floorf (x : ℚ) (hmin : INT_MIN ≤ Int.floor x)
    (hmax : Int.floor x ≤ INT_MAX) : int_of_float (floorf x) = Int.floor x := by
  unfold int_of_float floorf
  simp only [Int.floor_intCast, Int.ceil_intCast, ite_self]
  rw [if_pos ⟨hmin, hmax⟩]

theorem int_of_float_floorf_dyadic (m : ℤ) (k : ℕ) (hm : |m| < 2 ^ 24) :
    int_of_float (floorf ((m : ℚ) / 2 ^ k)) = Int.floor ((m : ℚ) / 2 ^ k) :=
  int_of_float_floorf _ (floor_dyadic_bounds m k hm).1 (floor_dyadic_bounds m k hm).2

theorem float_mul_dyadic (n c : ℤ) (k : ℕ) (h : |n * c| < 2 ^ 24) (hk : k ≤ 149) :
    float_mul (n : ℚ) ((c : ℚ) / 2 ^ k) = ((n * c : ℤ) : ℚ) / 2 ^ k := by
  unfold float_mul
  rw [show (n : ℚ) * ((c : ℚ) / 2 ^ k) = ((n * c : ℤ) : ℚ) / 2 ^ k by push_cast; ring]
  exact float_round_dyadic _ k h hk

theorem float_add_dyadic (a b : ℤ) (k : ℕ) (h : |a + b| < 2 ^ 24) (hk : k ≤ 149) :
    float_add ((a : ℚ) / 2 ^ k) ((b : ℚ) / 2 ^ k) = ((a + b : ℤ) : ℚ) / 2 ^ k := by
  unfold float_add
  rw [show (a : ℚ) / 2 ^ k + (b : ℚ) / 2 ^ k = ((a + b : ℤ) : ℚ) / 2 ^ k by push_cast; ring]
  exact float_round_dyadic _ k h hk

/-- Outside the exact range the rounding is visible: for the `float`
`10785353 / 2 ^ 23` (the one nearest to `9 / 7`) the product with 7 rounds up to 9. -/
theorem float_mul_rounds_up : float_mul 7 (10785353 / 8388608) = 9 := by
  have hq : (7 : ℚ) * (10785353 / 8388608) = 75497471 / 8388608 := by norm_num
  have hlog : Int.log 2 |(75497471 / 8388608 : ℚ)| = 3 := by
    rw [abs_of_pos (by norm_num)]
    apply le_antisymm
    · have := (Int.lt_zpow_iff_log_lt (b := 2) (x := 4) (r := (75497471 / 8388608 : ℚ))
        (by norm_num) (by norm_num)).mp (by norm_num)
      omega
    · exact (Int.zpow_le_iff_le_log (b := 2) (x := 3) (r := (75497471 / 8388608 : ℚ))
        (by norm_num) (by norm_num)).mp (by norm_num)
  have hfloor : Int.floor (75497471 / 8 : ℚ) = 9437183 := by
    rw [Int.floor_eq_iff]
    constructor <;> norm_num
  unfold float_mul float_round
  rw [hq, if_neg (by norm_num), hlog]
  have hulp : (2 : ℚ) ^ (max ((3 : ℤ) - 23) (-149)) = 1 / 1048576 := by
    rw [show max ((3 : ℤ) - 23) (-149) = -20 by decide, zpow_neg]
    norm_num
  simp only [hulp]
  rw [show (75497471 / 8388608 : ℚ) / (1 / 1048576) = 75497471 / 8 by norm_num]
  unfold round_half_even
  simp only [hfloor]
  norm_num


/-! ### The text loop on exact inputs -/

theorem abs_pen_lt (a c : ℤ) (i n : ℕ) (hi : i ≤ n)
    (h : |a| + (n : ℤ) * (7 * |c|) < 2 ^ 24) : |a + (i : ℤ) * (7 * c)| < 2 ^ 24 := by
  have h1 : |a + (i : ℤ) * (7 * c)| ≤ |a| + (i : ℤ) * (7 * |c|) := by
    calc |a + (i : ℤ) * (7 * c)| ≤ |a| + |(i : ℤ) * (7 * c)| := abs_add _ _
      _ = |a| + (i : ℤ) * (7 * |c|) := by
        rw [abs_mul, abs_mul, abs_of_nonneg (Int.natCast_nonneg i),
          abs_of_nonneg (by norm_num : (0 : ℤ) ≤ 7)]
  have h2 : (i : ℤ) * (7 * |c|) ≤ (n : ℤ) * (7 * |c|) :=
    mul_le_mul_of_nonneg_right (by exact_mod_cast hi) (by positivity)
  omega

theorem pen_step (a c : ℤ) (k : ℕ) (h : |a| + 7 * |c| < 2 ^ 24) (hk : k ≤ 149) :
    float_add ((a : ℚ) / 2 ^ k) (float_mul (FONT_CHAR_WIDTH : ℚ) ((c : ℚ) / 2 ^ k))
      = ((a + 7 * c : ℤ) : ℚ) / 2 ^ k := by
  have hw : ((FONT_CHAR_WIDTH : ℕ) : ℚ) = ((7 : ℤ) : ℚ) := by
    norm_num [FONT_CHAR_WIDTH, FONT_WIDTH, FONT_COLS]
  have h7 : |7 * c| = 7 * |c| := by
    rw [abs_mul, abs_of_nonneg (by norm_num : (0 : ℤ) ≤ 7)]
  have ha := abs_nonneg a
  have hsum : |a + 7 * c| ≤ |a| + |7 * c| := abs_add _ _
  rw [hw, float_mul_dyadic 7 c k (by omega) hk, float_add_dyadic a (7 * c) k (by omega) hk]

theorem render_text_loop_exact (font : Font) (text : Nat → Int) (k : ℕ) (c : ℤ) (y : ℚ)
    (hk : k ≤ 149) :
    ∀ (n i : Nat) (a : ℤ),
      (∀ j, j < n → 32 ≤ text (i + j) ∧ text (i + j) ≤ 126) →
      |a| + (n : ℤ) * (7 * |c|) < 2 ^ 24 →
      render_text_loop font text ((c : ℚ) / 2 ^ k) n i { x := (a : ℚ) / 2 ^ k, y := y }
        = .ok ((List.range n).map (fun j =>
            SDLCall.RenderCopy font.spritesheet (font.glyph_table (text (i + j) - 32).toNat)
              (char_dst { x := ((a + (j : ℤ) * (7 * c) : ℤ) : ℚ) / 2 ^ k, y := y }
                ((c : ℚ) / 2 ^ k)))) := by
  intro n
  induction n with
  | zero => intro i a _ _; rfl
  | succ n ih =>
    intro i a h hb
    have h0 := h 0 (Nat.succ_pos n)
    have hrest : ∀ j, j < n → 32 ≤ text (i + 1 + j) ∧ text (i + 1 + j) ≤ 126 := by
      intro j hj
      have := h (j + 1) (Nat.succ_lt_succ hj)
      rwa [show i + 1 + j = i + (j + 1) by omega]
    have hexp : ((n + 1 : ℕ) : ℤ) * (7 * |c|) = (n : ℤ) * (7 * |c|) + 7 * |c| := by
      push_cast; ring
    have hT : 0 ≤ (n : ℤ) * (7 * |c|) := by positivity
    have hc0 := abs_nonneg c
    have hstep : |a| + 7 * |c| < 2 ^ 24 := by omega
    have hnext : |a + 7 * c| + (n : ℤ) * (7 * |c|) < 2 ^ 24 := by
      have h7 : |7 * c| = 7 * |c| := by
        rw [abs_mul, abs_of_nonneg (by norm_num : (0 : ℤ) ≤ 7)]
      have hsum : |a + 7 * c| ≤ |a| + |7 * c| := abs_add _ _
      omega
    rw [render_text_loop, render_char_ok font (text i) _ _ h0.1 h0.2]
    simp only []
    rw [pen_step a c k hstep hk, ih (i + 1) (a + 7 * c) hrest hnext]
    simp only [List.range_succ_eq_map, List.map_cons, List.map_map]
    congr 2
    · simp
    · apply List.map_congr_left
      intro j _
      simp only [Function.comp, Nat.succ_eq_add_one]
      rw [show i + 1 + j = i + (j + 1) by omega]
      congr 4
      push_cast
      ring

theorem char_dst_exact (a b c : ℤ) (k : ℕ) (ha : |a| < 2 ^ 24) (hb : |b| < 2 ^ 24)
    (hc : 9 * |c| < 2 ^ 24) (hk : k ≤ 149) :
    char_dst { x := (a : ℚ) / 2 ^ k, y := (b : ℚ) / 2 ^ k } ((c : ℚ) / 2 ^ k)
      = { x := Int.floor ((a : ℚ) / 2 ^ k)
          y := Int.floor ((b : ℚ) / 2 ^ k)
          w := Int.floor (((7 * c : ℤ) : ℚ) / 2 ^ k)
          h := Int.floor (((9 * c : ℤ) : ℚ) / 2 ^ k) } := by
  have hw : ((FONT_CHAR_WIDTH : ℕ) : ℚ) = ((7 : ℤ) : ℚ) := by
    norm_num [FONT_CHAR_WIDTH, FONT_WIDTH, FONT_COLS]
  have hh : ((FONT_CHAR_HEIGHT : ℕ) : ℚ) = ((9 : ℤ) : ℚ) := by
    norm_num [FONT_CHAR_HEIGHT, FONT_HEIGHT, FONT_ROWS]
  have hc0 := abs_nonneg c
  have h7 : |7 * c| < 2 ^ 24 := by
    rw [abs_mul, abs_of_nonneg (by norm_num : (0 : ℤ) ≤ 7)]; omega
  have h9 : |9 * c| < 2 ^ 24 := by
    rw [abs_mul, abs_of_nonneg (by norm_num : (0 : ℤ) ≤ 9)]; omega
  unfold char_dst
  simp only []
  rw [hw, hh, float_mul_dyadic 7 c k h7 hk, float_mul_dyadic 9 c k h9 hk,
    int_of_float_floorf_dyadic a k ha, int_of_float_floorf_dyadic b k hb,
    int_of_float_floorf_dyadic (7 * c) k h7, int_of_float_floorf_dyadic (9 * c) k h9]

theorem render_text_sized_exact (font : Font) (text : Nat → Int) (text_size : Nat)
    (color : Nat) (k : ℕ) (a b c : ℤ)
    (hvalid : ∀ i, i < text_size → 32 ≤ text i ∧ text i ≤ 126) (hk : k ≤ 149)
    (hxb : |a| + (text_size : ℤ) * (7 * |c|) < 2 ^ 24) (hyb : |b| < 2 ^ 24)
    (hsb : 9 * |c| < 2 ^ 24) :
    render_text_sized font text text_size (vec2f ((a : ℚ) / 2 ^ k) ((b : ℚ) / 2 ^ k)) color
        ((c : ℚ) / 2 ^ k)
      = .ok (.SetTextureColorMod font.spritesheet
            (color % 256) (color / 256 % 256) (color / 65536 % 256)
          :: .SetTextureAlphaMod font.spritesheet (color / 16777216 % 256)
          :: (List.range text_size).map (fun i =>
              SDLCall.RenderCopy font.spritesheet (font.glyph_table (text i - 32).toNat)
                { x := Int.floor (((a + (i : ℤ) * (7 * c) : ℤ) : ℚ) / 2 ^ k)
                  y := Int.floor ((b : ℚ) / 2 ^ k)
                  w := Int.floor (((7 * c : ℤ) : ℚ) / 2 ^ k)
                  h := Int.floor (((9 * c : ℤ) : ℚ) / 2 ^ k) })) := by
  have hloop := render_text_loop_exact font text k c ((b : ℚ) / 2 ^ k) hk text_size 0 a
    (fun j hj => by simpa using hvalid j hj) hxb
  unfold render_text_sized vec2f
  rw [hloop]
  simp only [Nat.zero_add, Nat.mul_zero, Nat.pow_zero, Nat.div_one]
  congr 3
  apply List.map_congr_left
  intro i hi
  have hlt : i < text_size := List.mem_range.mp hi
  rw [char_dst_exact _ b c k (abs_pen_lt a c i text_size (Nat.le_of_lt hlt) hxb) hyb hsb hk]

/-- C8: for every text whose first `text_size` characters are all in `[32, 126]` and
every origin and scale that are exact numbers for the `float` arithmetic of the code
(`origin.x = a / 2 ^ k`, `origin.y = b / 2 ^ k`, `scale = c / 2 ^ k` with integers
`a`, `b`, `c` and `k ≤ 149` such that `|a| + text_size * 7 * |c|`, `|b|` and `9 * |c|`
stay below `2 ^ 24`; integer scales such as 5 are the case `k = 0`), `render_text_sized`
succeeds and, after setting the colour and alpha modulation, issues exactly `text_size`
blits in index order; the blit for index `i` has source `glyph_table[text[i] - 32]` and
destination `x = floor (origin.x + i * 7 * scale)`, `y = floor origin.y`,
`w = floor (7 * scale)`, `h = floor (9 * scale)`. -/
theorem render_text_sized_layout (font : Font) (text : Nat → Int) (text_size : Nat)
    (pos : Vec2f) (color : Nat) (scale : ℚ) (k : ℕ) (a b c : ℤ)
    (hvalid : ∀ i, i < text_size → 32 ≤ text i ∧ text i ≤ 126)
    (hk : k ≤ 149) (hx : pos.x = (a : ℚ) / 2 ^ k) (hy : pos.y = (b : ℚ) / 2 ^ k)
    (hscale : scale = (c : ℚ) / 2 ^ k)
    (hxb : |a| + (text_size : ℤ) * (7 * |c|) < 2 ^ 24) (hyb : |b| < 2 ^ 24)
    (hsb : 9 * |c| < 2 ^ 24) :
    ∃ copies : List SDLCall,
      render_text_sized font text text_size pos color scale
          = .ok (.SetTextureColorMod font.spritesheet
                (color % 256) (color / 256 % 256) (color / 65536 % 256)
              :: .SetTextureAlphaMod font.spritesheet (color / 16777216 % 256)
              :: copies)
        ∧ copies.length = text_size
        ∧ ∀ i, i < text_size →
            copies[i]? = some
              (.RenderCopy font.spritesheet (font.glyph_table (text i - 32).toNat)
                { x := Int.floor (pos.x + (i : ℚ) * 7 * scale)
                  y := Int.floor pos.y
                  w := Int.floor (7 * scale)
                  h := Int.floor (9 * scale) }) := by
  have hpos : pos = vec2f ((a : ℚ) / 2 ^ k) ((b : ℚ) / 2 ^ k) := by
    cases pos
    simp only [vec2f] at *
    rw [hx, hy]
  refine ⟨(List.range text_size).map (fun i =>
      SDLCall.RenderCopy font.spritesheet (font.glyph_table (text i - 32).toNat)
        { x := Int.floor (((a + (i : ℤ) * (7 * c) : ℤ) : ℚ) / 2 ^ k)
          y := Int.floor ((b : ℚ) / 2 ^ k)
          w := Int.floor (((7 * c : ℤ) : ℚ) / 2 ^ k)
          h := Int.floor (((9 * c : ℤ) : ℚ) / 2 ^ k) }), ?_, ?_, ?_⟩
  · rw [hpos, hscale]
    exact render_text_sized_exact font text text_size color k a b c hvalid hk hxb hyb hsb
  · rw [List.length_map, List.length_range]
  · intro i hi
    simp only [List.getElem?_map, List.getElem?_range hi, Option.map_some', hx, hy, hscale]
    congr 4
    · push_cast; ring
    · push_cast; ring
    · push_cast; ring

/-- C8, scenario of the spec: the text "AB" at origin `(0, 0)` with scale 5 draws `'A'`
(source `(105, 9, 7, 9)`) at `(0, 0)` and `'B'` (source `(112, 9, 7, 9)`) at `(35, 0)`,
each 35 x 45 pixels. -/
theorem render_text_sized_layout_witness :
    (∀ i, i < 2 → 32 ≤ text_AB i ∧ text_AB i ≤ 126)
      ∧ render_text_sized (font_load_from_file 0 "./charmap_white.png") text_AB 2 (vec2f 0 0)
          0xFFFFFFFF 5
        = .ok [ .SetTextureColorMod ⟨0, "./charmap_white.png"⟩ 255 255 255,
                .SetTextureAlphaMod ⟨0, "./charmap_white.png"⟩ 255,
                .RenderCopy ⟨0, "./charmap_white.png"⟩ ⟨105, 9, 7, 9⟩ ⟨0, 0, 35, 45⟩,
                .RenderCopy ⟨0, "./charmap_white.png"⟩ ⟨112, 9, 7, 9⟩ ⟨35, 0, 35, 45⟩ ] := by
  have hvalid : ∀ i, i < 2 → 32 ≤ text_AB i ∧ text_AB i ≤ 126 := by decide
  refine ⟨hvalid, ?_⟩
  obtain ⟨copies, heq, hlen, hget⟩ := render_text_sized_layout
    (font_load_from_file 0 "./charmap_white.png") text_AB 2 (vec2f 0 0) 0xFFFFFFFF 5 0 0 0 5
    hvalid (by decide) (by norm_num [vec2f]) (by norm_num [vec2f]) (by norm_num)
    (by decide) (by decide) (by decide)
  have h0 := hget 0 (by decide)
  have h1 := hget 1 (by decide)
  have hA : text_AB 0 = 65 := by decide
  have hB : text_AB 1 = 66 := by decide
  have gA := font_glyph_table_at 0 "./charmap_white.png" 65 (by decide) (by decide)
  have gB := font_glyph_table_at 0 "./charmap_white.png" 66 (by decide) (by decide)
  rw [heq]
  match copies, hlen, h0, h1 with
  | [a, b], _, h0, h1 =>
    simp only [List.getElem?_cons_zero, List.getElem?_cons_succ, Option.some.injEq] at h0 h1
    rw [h0, h1, hA, hB]
    have e1 : ((65 : Int) - 32).toNat = 65 - 32 := by decide
    have e2 : ((66 : Int) - 32).toNat = 66 - 32 := by decide
    rw [e1, e2, gA, gB]
    norm_num [vec2f, glyph_rect_eq, font_load_from_file]

theorem cursor_rect_eq (cursor : Nat) (h : cursor ≤ BUFFER_CAPACITY) :
    cursor_rect cursor = { x := 35 * (cursor : Int), y := 0, w := 35, h := 45 } := by
  have hmod : cursor * FONT_CHAR_WIDTH * FONT_SCALE % SIZE_T_MOD = 35 * cursor := by
    have hw : FONT_CHAR_WIDTH = 7 := rfl
    have hs : FONT_SCALE = 5 := rfl
    rw [hw, hs]
    unfold SIZE_T_MOD BUFFER_CAPACITY at *
    omega
  have hm : |((35 * cursor : ℕ) : ℤ)| < 2 ^ 24 := by
    rw [abs_of_nonneg (Int.natCast_nonneg _)]
    unfold BUFFER_CAPACITY at h
    push_cast
    omega
  have hq : (((35 * cursor : ℕ) : ℤ) : ℚ) / 2 ^ 0 = ((35 * cursor : ℕ) : ℚ) := by
    push_cast; ring
  have hround := float_round_dyadic ((35 * cursor : ℕ) : ℤ) 0 hm (by decide)
  have hcast := int_of_float_floorf_dyadic ((35 * cursor : ℕ) : ℤ) 0 hm
  rw [hq] at hround hcast
  unfold cursor_rect
  rw [hmod, hround, hcast, Int.floor_natCast]
  have e1 : ((FONT_CHAR_WIDTH * FONT_SCALE : Nat) : Int) = 35 := rfl
  have e2 : ((FONT_CHAR_HEIGHT * FONT_SCALE : Nat) : Int) = 45 := rfl
  rw [e1, e2]
  push_cast
  rfl

/-- C9: for every cursor value with `0 ≤ cursor ≤ 1024`, `render_cursor` sets the draw
colour and fills the rectangle at `(cursor * 7 * 5, 0)` of size `(7 * 5, 9 * 5)`, that
is `(35 * cursor, 0, 35, 45)`; and when `cursor = size`, this is the destination
rectangle that `render_text_sized` from origin `(0, 0)` with scale 5 gives the character
at index `size` of any text that has a drawable character there. -/
theorem render_cursor_geometry (s : EditorState) (color : Nat)
    (h : s.buffer_cursor ≤ BUFFER_CAPACITY) :
    render_cursor s color
        = [ .SetRenderDrawColor (color % 256) (color / 256 % 256) (color / 65536 % 256)
              (color / 16777216 % 256),
            .RenderFillRect
              { x := ((s.buffer_cursor * FONT_CHAR_WIDTH * FONT_SCALE : Nat) : Int), y := 0,
                w := ((FONT_CHAR_WIDTH * FONT_SCALE : Nat) : Int),
                h := ((FONT_CHAR_HEIGHT * FONT_SCALE : Nat) : Int) } ]
      ∧ cursor_rect s.buffer_cursor
        = { x := 35 * (s.buffer_cursor : Int), y := 0, w := 35, h := 45 }
      ∧ (s.buffer_cursor = s.buffer_size →
          ∀ (font : Font) (text : Nat → Int) (text_color : Nat),
            (∀ i, i < s.buffer_size + 1 → 32 ≤ text i ∧ text i ≤ 126) →
            ∃ copies : List SDLCall,
              render_text_sized font text (s.buffer_size + 1) (vec2f 0 0) text_color
                  (FONT_SCALE : ℚ)
                = .ok (.SetTextureColorMod font.spritesheet
                      (text_color % 256) (text_color / 256 % 256) (text_color / 65536 % 256)
                    :: .SetTextureAlphaMod font.spritesheet (text_color / 16777216 % 256)
                    :: copies)
              ∧ copies[s.buffer_size]? = some
                  (.RenderCopy font.spritesheet
                    (font.glyph_table (text s.buffer_size - 32).toNat)
                    (cursor_rect s.buffer_cursor))) := by
  have hrect := cursor_rect_eq s.buffer_cursor h
  refine ⟨?_, hrect, ?_⟩
  · unfold render_cursor
    rw [hrect]
    have hw : FONT_CHAR_WIDTH = 7 := rfl
    have hh : FONT_CHAR_HEIGHT = 9 := rfl
    have hs : FONT_SCALE = 5 := rfl
    rw [hw, hh, hs]
    norm_num
    ring
  · intro hcur font text text_color hvalid
    have hbound : |(0 : ℤ)| + ((s.buffer_size + 1 : ℕ) : ℤ) * (7 * |(5 : ℤ)|) < 2 ^ 24 := by
      have hle : s.buffer_size ≤ 1024 := hcur ▸ h
      rw [abs_zero, abs_of_nonneg (by norm_num : (0 : ℤ) ≤ 5)]
      push_cast
      omega
    have hexact := render_text_sized_exact font text (s.buffer_size + 1) text_color 0 0 0 5
      hvalid (by decide) hbound (by decide) (by decide)
    have hzero : (((0 : ℤ) : ℚ)) / 2 ^ 0 = 0 := by norm_num
    have hfive : (((5 : ℤ) : ℚ)) / 2 ^ 0 = ((FONT_SCALE : ℕ) : ℚ) := by
      norm_num [FONT_SCALE]
    rw [hzero, hfive] at hexact
    refine ⟨_, hexact, ?_⟩
    rw [hrect, hcur]
    simp only [List.getElem?_map, List.getElem?_range (Nat.lt_succ_self s.buffer_size),
      Option.map_some']
    congr 3
    · rw [show (((0 + (s.buffer_size : ℤ) * (7 * 5) : ℤ) : ℚ)) / 2 ^ 0
          = ((35 * (s.buffer_size : ℤ) : ℤ) : ℚ) by push_cast; ring]
      rw [Int.floor_intCast]
    all_goals norm_num

/-- C9 after typing "AB" (cursor 2, size 2): the cursor block is `(70, 0, 35, 45)`. -/
theorem render_cursor_geometry_witness :
    state_AB.buffer_cursor ≤ BUFFER_CAPACITY
      ∧ state_AB.buffer_cursor = 2
      ∧ render_cursor state_AB 0xFFFFFFFF
        = [ .SetRenderDrawColor 255 255 255 255, .RenderFillRect ⟨70, 0, 35, 45⟩ ] := by
  have hle : state_AB.buffer_cursor ≤ BUFFER_CAPACITY := by decide
  have hcur : state_AB.buffer_cursor = 2 := by decide
  refine ⟨hle, hcur, ?_⟩
  rw [(render_cursor_geometry state_AB 0xFFFFFFFF hle).1, hcur]
  decide

end TEditor
